import Mathlib

/-!
Verification development for the core of `xrep`: a shallow embedding of the
ZIP streaming reader (`src/zip/mod.rs`), the magic sniffer (`src/magic.rs`),
the decompression dispatcher (`src/decompressor.rs`) and the searcher error
surface (`grep/src/lib.rs`), together with theorems settling the spec claims.

Bytes are modelled as natural numbers (< 256 in well-formed streams) and byte
streams as `List Nat`, read from the front.
-/

set_option maxHeartbeats 1000000
set_option maxRecDepth 8000
set_option linter.unusedVariables false

namespace Xrep

/-! ## Byte-stream primitives (little-endian reads, as done by `byteorder`) -/

/-- Value of the first `w` bytes of `s`, little-endian (missing bytes count 0). -/
def leNat : Nat → List Nat → Nat
  | 0, _ => 0
  | _ + 1, [] => 0
  | w + 1, b :: r => b + 256 * leNat w r

/-- Little-endian encoding of `n` on `w` bytes (truncating above `256^w`). -/
def leBytes : Nat → Nat → List Nat
  | 0, _ => []
  | w + 1, n => (n % 256) :: leBytes w (n / 256)

/-- `read_uN::<LittleEndian>` on a byte stream: exactly `w` bytes or EOF. -/
def readLE (w : Nat) (s : List Nat) : Option (Nat × List Nat) :=
  if w ≤ s.length then some (leNat w s, s.drop w) else none

/-- `read_exact` into a buffer of length `n`: the bytes and the rest, or EOF. -/
def readExact (n : Nat) (s : List Nat) : Option (List Nat × List Nat) :=
  if n ≤ s.length then some (s.take n, s.drop n) else none

/-! ## Magic sniffer (`src/magic.rs`) -/

inductive Magic where
  | unknown
  | gzip
  | zip
deriving DecidableEq, Repr

/-- `Magic::from_slice`: classify the leading bytes of `buf`. -/
def Magic.from_slice (buf : List Nat) : Magic :=
  if [0x1f, 0x8b].isPrefixOf buf then .gzip
  else if [0x50, 0x4b, 0x03, 0x04].isPrefixOf buf then .zip
  else if [0x50, 0x4b, 0x05, 0x06].isPrefixOf buf then .zip
  else .unknown

/-- State of `MagicReader<R>`: the inner reader, the replay position `pos`,
the number `lim` of valid peeked bytes, and the 4-byte peek buffer `buf`
(modelled as a list holding the array's contents). -/
structure MagicReader (σ : Type) where
  inner : σ
  pos : Nat
  lim : Nat
  buf : List Nat
deriving DecidableEq, Repr

/-- A `Read` implementation: given a state and a maximum byte count, either an
I/O error or the bytes delivered (at most the requested count) plus the new
state. -/
def ReadFn (σ : Type) : Type := σ → Nat → Except Unit (List Nat × σ)

/-- `<MagicReader as Read>::read` with a caller buffer of length `n`,
generic over the inner reader exactly as the source is generic over `R: Read`.
While peeked bytes remain they are replayed first; if the caller buffer is not
yet full, one read of the inner reader is attempted and an error from it is
silently dropped (`Err(..) => Ok(count)`). -/
def MagicReader.read (rd : ReadFn σ) (m : MagicReader σ) (n : Nat) :
    Except Unit (List Nat × MagicReader σ) :=
  if m.pos < m.lim then
    let count := min (m.lim - m.pos) n
    let chunk := (m.buf.drop m.pos).take count
    if count < n then
      match rd m.inner (n - count) with
      | .ok (bs, s') => .ok (chunk ++ bs, { m with pos := m.pos + count, inner := s' })
      | .error _ => .ok (chunk, { m with pos := m.pos + count })
    else .ok (chunk, { m with pos := m.pos + count })
  else
    match rd m.inner n with
    | .ok (bs, s') => .ok (bs, { m with inner := s' })
    | .error e => .error e

/-- The canonical error-free reader: a byte list delivering a prefix of the
requested length, as `impl Read for &[u8]` does. -/
def listRead : ReadFn (List Nat) :=
  fun s n => .ok (s.take n, s.drop n)

/-- `MagicReader::new` over a plain byte stream: `read_all` peeks up to 4
bytes into the buffer (the unfilled tail of the array stays 0). -/
def MagicReader.new (s : List Nat) : MagicReader (List Nat) :=
  { inner := s.drop 4
    pos := 0
    lim := min 4 s.length
    buf := s.take 4 ++ List.replicate (4 - s.length) 0 }

/-- `MagicReader::magic`: classify the peeked bytes `buf[..lim]`. -/
def MagicReader.magic (m : MagicReader σ) : Magic :=
  Magic.from_slice (m.buf.take m.lim)

/-- Drive `read` with chunks of size `k` until a read returns no bytes (EOF),
concatenating everything delivered; `none` on I/O error or fuel exhaustion
(the fuel is always chosen sufficient in the theorems below). This is
`Read::read_to_end` restricted to a fixed per-call buffer size. -/
def readToEnd (rd : ReadFn σ) : Nat → MagicReader σ → Nat → Option (List Nat)
  | 0, _, _ => none
  | fuel + 1, m, k =>
    match MagicReader.read rd m k with
    | .error _ => none
    | .ok (bs, m') =>
      if bs.isEmpty then some []
      else
        match readToEnd rd fuel m' k with
        | none => none
        | some rest => some (bs ++ rest)

/-! ## CRC-32/IEEE (`crc::crc32::checksum_ieee`, used to validate Unicode-path extras) -/

/-- One shift step of the reflected CRC-32/IEEE computation. -/
def crc32Step (c : Nat) : Nat :=
  if c % 2 = 1 then (c / 2) ^^^ 0xEDB88320 else c / 2

/-- Fold one input byte into the CRC state (8 shift steps). -/
def crc32Byte (c b : Nat) : Nat :=
  (crc32Step (crc32Step (crc32Step (crc32Step
    (crc32Step (crc32Step (crc32Step (crc32Step (c ^^^ b)))))))))

/-- CRC-32/IEEE of a byte sequence. -/
def checksum_ieee (bs : List Nat) : Nat :=
  (bs.foldl crc32Byte 0xFFFFFFFF) ^^^ 0xFFFFFFFF

/-! ## UTF-8 lossy decoding (`String::from_utf8_lossy`) -/

/-- Replacement character U+FFFD. -/
def repChar : Char := Char.ofNat 0xFFFD

/-- Is `b` a UTF-8 continuation byte (`0x80..=0xBF`)? -/
def isCont (b : Nat) : Bool := 0x80 ≤ b && b ≤ 0xBF

/-- Valid second byte for a three-byte sequence led by `b0`. -/
def valid3 (b0 b1 : Nat) : Bool :=
  if b0 = 0xE0 then 0xA0 ≤ b1 && b1 ≤ 0xBF
  else if b0 = 0xED then 0x80 ≤ b1 && b1 ≤ 0x9F
  else isCont b1

/-- Valid second byte for a four-byte sequence led by `b0`. -/
def valid4 (b0 b1 : Nat) : Bool :=
  if b0 = 0xF0 then 0x90 ≤ b1 && b1 ≤ 0xBF
  else if b0 = 0xF4 then 0x80 ≤ b1 && b1 ≤ 0x8F
  else isCont b1

/-- UTF-8 decoding with U+FFFD substitution of invalid sequences (one
replacement per rejected maximal valid prefix, as `String::from_utf8_lossy`
does). Structurally recursive on a fuel argument; every step consumes at
least one byte, so fuel equal to the list length (supplied by `utf8Lossy`)
always suffices. -/
def utf8LossyF : Nat → List Nat → List Char
  | 0, _ => []
  | _ + 1, [] => []
  | fuel + 1, b0 :: r =>
    if b0 < 0x80 then Char.ofNat b0 :: utf8LossyF fuel r
    else if b0 < 0xC2 then repChar :: utf8LossyF fuel r
    else if b0 < 0xE0 then
      match r with
      | [] => [repChar]
      | b1 :: r1 =>
        if isCont b1 then
          Char.ofNat ((b0 - 0xC0) * 64 + (b1 - 0x80)) :: utf8LossyF fuel r1
        else repChar :: utf8LossyF fuel r
    else if b0 < 0xF0 then
      match r with
      | [] => [repChar]
      | b1 :: r1 =>
        if valid3 b0 b1 then
          match r1 with
          | [] => [repChar]
          | b2 :: r2 =>
            if isCont b2 then
              Char.ofNat ((b0 - 0xE0) * 4096 + (b1 - 0x80) * 64 + (b2 - 0x80)) ::
                utf8LossyF fuel r2
            else repChar :: utf8LossyF fuel r1
        else repChar :: utf8LossyF fuel r
    else if b0 < 0xF5 then
      match r with
      | [] => [repChar]
      | b1 :: r1 =>
        if valid4 b0 b1 then
          match r1 with
          | [] => [repChar]
          | b2 :: r2 =>
            if isCont b2 then
              match r2 with
              | [] => [repChar]
              | b3 :: r3 =>
                if isCont b3 then
                  Char.ofNat ((b0 - 0xF0) * 262144 + (b1 - 0x80) * 4096 +
                    (b2 - 0x80) * 64 + (b3 - 0x80)) :: utf8LossyF fuel r3
                else repChar :: utf8LossyF fuel r2
            else repChar :: utf8LossyF fuel r1
        else repChar :: utf8LossyF fuel r
    else repChar :: utf8LossyF fuel r

/-- Decoded characters of `bs` under lossy UTF-8. -/
def utf8Lossy (bs : List Nat) : List Char := utf8LossyF bs.length bs

/-- `String::from_utf8_lossy` as a `String`. -/
def utf8LossyStr (bs : List Nat) : String := String.mk (utf8Lossy bs)

/-! ## CP437 (`src/zip/cp437.rs`) -/

/-- Modelled from the spec: the `cp437` module is declared in
`src/zip/mod.rs` but its source file is not among the provided sources.
Per §4.8, bytes `0x00..=0x7F` are ASCII-identical and `0x80..=0xFF` map to
the IBM code page 437 graphical characters; this is that table's upper half
as Unicode code points. -/
def cp437Table : List Nat :=
  [0x00C7, 0x00FC, 0x00E9, 0x00E2, 0x00E4, 0x00E0, 0x00E5, 0x00E7,
   0x00EA, 0x00EB, 0x00E8, 0x00EF, 0x00EE, 0x00EC, 0x00C4, 0x00C5,
   0x00C9, 0x00E6, 0x00C6, 0x00F4, 0x00F6, 0x00F2, 0x00FB, 0x00F9,
   0x00FF, 0x00D6, 0x00DC, 0x00A2, 0x00A3, 0x00A5, 0x20A7, 0x0192,
   0x00E1, 0x00ED, 0x00F3, 0x00FA, 0x00F1, 0x00D1, 0x00AA, 0x00BA,
   0x00BF, 0x2310, 0x00AC, 0x00BD, 0x00BC, 0x00A1, 0x00AB, 0x00BB,
   0x2591, 0x2592, 0x2593, 0x2502, 0x2524, 0x2561, 0x2562, 0x2556,
   0x2555, 0x2563, 0x2551, 0x2557, 0x255D, 0x255C, 0x255B, 0x2510,
   0x2514, 0x2534, 0x252C, 0x251C, 0x2500, 0x253C, 0x255E, 0x255F,
   0x255A, 0x2554, 0x2569, 0x2566, 0x2560, 0x2550, 0x256C, 0x2567,
   0x2568, 0x2564, 0x2565, 0x2559, 0x2558, 0x2552, 0x2553, 0x256B,
   0x256A, 0x2518, 0x250C, 0x2588, 0x2584, 0x258C, 0x2590, 0x2580,
   0x03B1, 0x00DF, 0x0393, 0x03C0, 0x03A3, 0x03C3, 0x00B5, 0x03C4,
   0x03A6, 0x0398, 0x03A9, 0x03B4, 0x221E, 0x03C6, 0x03B5, 0x2229,
   0x2261, 0x00B1, 0x2265, 0x2264, 0x2320, 0x2321, 0x00F7, 0x2248,
   0x00B0, 0x2219, 0x00B7, 0x221A, 0x207F, 0x00B2, 0x25A0, 0x00A0]

/-- `cp437::to_char`: byte-to-Unicode translation. -/
def cp437ToChar (b : Nat) : Char :=
  if b < 0x80 then Char.ofNat b else Char.ofNat (cp437Table.getD (b - 0x80) 0)

/-- Decode a whole name byte-by-byte through CP437. -/
def cp437Str (bs : List Nat) : String := String.mk (bs.map cp437ToChar)

/-! ## ZIP streaming reader (`src/zip/mod.rs`) -/

/-- `zip::Error` (the `IoError` payload is dropped: all underlying I/O
failures are EOF-style errors of the byte-stream model). -/
inductive ZipError where
  | ioError
  | unknownRecord (sig : Nat)
  | newerVersionNeeded (version : Nat)
  | encrypted
  | patched
  | unknownMethod (method : Nat)
  | unknownDataSize
  | dataDescriptorMismatch
deriving DecidableEq, Repr

/-- `zip::Action`, the callback's continue/stop decision. -/
inductive Action where
  | cont
  | stop
deriving DecidableEq, Repr

/-- `zip::Method`. -/
inductive Method where
  | store
  | deflate
deriving DecidableEq, Repr

/-- What the callback receives as its second argument: a readable entry
handle (`Ok(reader)`) or an entry-level error (`Err(kind)`). -/
inductive EntryResult where
  | reader
  | err (e : ZipError)
deriving DecidableEq, Repr

deriving instance DecidableEq for Except

/-- The callback's behaviour on one invocation: how many bytes it reads from
the handle it was given (ignored when it received an error), and its return
value — `.error` models the callback returning an `io::Error`, `.ok` an
`Action`. -/
structure CbOut where
  bytesRead : Nat
  act : Except Unit Action
deriving DecidableEq, Repr

/-- A recorded callback invocation: entry name and entry result. -/
abbrev Inv := String × EntryResult

/-- The caller-supplied callback, abstracted over the entry's data: it sees
the decoded name and the entry result. -/
abbrev Callback := String → EntryResult → CbOut

/-- Abstract raw-deflate decoder (`flate2::bufread::DeflateDecoder`) as seen
by the streaming branch: on a given raw byte stream, `some n` means decoding
to the deflate end-of-stream marker consumes exactly `n` raw bytes, `none`
means the decoder fails with an I/O error. -/
abbrev Decoder := List Nat → Option Nat

/-- `Zip64Extra`. -/
structure Zip64Extra where
  uncompressed : Nat
  compressed : Nat
deriving DecidableEq, Repr

/-- `Extra`: parsed extra fields of one local header. -/
structure Extra where
  unicode_path : Option (List Nat) := none
  zip64 : Option Zip64Extra := none
deriving DecidableEq, Repr

/-- `parse_extra`, fuelled (each iteration consumes the 4 tag/size bytes, so
fuel `buf.length + 1` — supplied by `parse_extra` — always suffices).
An unexpected EOF while reading a record aborts parsing but is tolerated by
the caller: the extras accumulated so far stand, which is why every EOF case
returns `ex` directly. For a validated Unicode-path record the payload is
`&buf[..data.limit()]`, i.e. the bytes after the version and CRC fields up to
the record's declared size (the source indexes the underlying slice and would
panic if the declared size overran it; the model clamps with `take`, which
agrees with the source whenever the extras block is well-formed). -/
def parseExtraLoop (name_buf : List Nat) : Nat → List Nat → Extra → Extra
  | 0, _, ex => ex
  | fuel + 1, buf, ex =>
    if buf.isEmpty then ex
    else
    match readLE 2 buf with
    | none => ex
    | some (tag, r1) =>
      match readLE 2 r1 with
      | none => ex
      | some (size, r2) =>
        let d := r2.take size
        let rest := r2.drop size
        if tag = 0x0001 then
          match readLE 8 d with
          | none => ex
          | some (unc, d1) =>
            match readLE 8 d1 with
            | none => ex
            | some (comp, _) =>
              parseExtraLoop name_buf fuel rest { ex with zip64 := some ⟨unc, comp⟩ }
        else if tag = 0x7075 then
          match readLE 1 d with
          | none => ex
          | some (version, d1) =>
            if version = 1 then
              match readLE 4 d1 with
              | none => ex
              | some (crc, _) =>
                if crc = checksum_ieee name_buf then
                  parseExtraLoop name_buf fuel rest
                    { ex with unicode_path := some ((r2.drop 5).take (size - 5)) }
                else parseExtraLoop name_buf fuel rest ex
            else parseExtraLoop name_buf fuel rest ex
        else parseExtraLoop name_buf fuel rest ex

/-- `parse_extra(extra_buf, name_buf, extra)`. -/
def parse_extra (name_buf extra_buf : List Nat) (ex : Extra) : Extra :=
  parseExtraLoop name_buf (extra_buf.length + 1) extra_buf ex

/-- ZIP64 size reconciliation: a header size equal to `u32::MAX` is replaced
by the ZIP64 extra's value when one is present. -/
def reconcile (size0 : Nat) (z : Option Zip64Extra) (pick : Zip64Extra → Nat) : Nat :=
  match z with
  | some z64 => if size0 = 0xFFFFFFFF then pick z64 else size0
  | none => size0

/-- The name passed to the callback (`for_each_entry` lines 124–130):
flag bit 11 forces lossy UTF-8 of the raw name; otherwise a validated
Unicode-path extra wins; otherwise CP437. -/
def entryName (flags : Nat) (name_buf : List Nat) (extra : Extra) : String :=
  if flags &&& (1 <<< 11) ≠ 0 then utf8LossyStr name_buf
  else
    match extra.unicode_path with
    | some p => utf8LossyStr p
    | none => cp437Str name_buf

/-- The method-or-entry-error computation (`for_each_entry` lines 132–144). -/
def entryMethod (version flags method : Nat) : Except ZipError Method :=
  if version > 45 then .error (.newerVersionNeeded version)
  else if flags &&& 1 ≠ 0 then .error .encrypted
  else if flags &&& 32 ≠ 0 then .error .patched
  else if method = 0 then .ok .store
  else if method = 8 then .ok .deflate
  else .error (.unknownMethod method)

/-- Outcome of processing one local-file record (everything after its
signature): `rest` is the remaining stream (the cursor position). `next`
continues the iteration, `stopped` is a callback `Stop`, `failed` aborts with
a structural error. -/
inductive StepOut where
  | next (rest : List Nat) (inv : Inv)
  | stopped (rest : List Nat) (inv : Inv)
  | failed (e : ZipError) (rest : List Nat) (inv? : Option Inv)
deriving DecidableEq, Repr

/-- The parsed fixed fields of a local file header that the reader goes on to
use, plus the name and extras bytes. -/
structure Header where
  version : Nat
  flags : Nat
  method0 : Nat
  compressed0 : Nat
  name_buf : List Nat
  extra_buf : List Nat
deriving DecidableEq, Repr

/-- The sequential header reads of `for_each_entry` (lines 91–106): ten fixed
little-endian fields, then the name and extras buffers. The time, date, crc32
and uncompressed-size fields are read and discarded, as the source never uses
them on any path relevant here. -/
def readHeader (r : List Nat) : Option (Header × List Nat) := do
  let (version, r) ← readLE 2 r
  let (flags, r) ← readLE 2 r
  let (method0, r) ← readLE 2 r
  let (_, r) ← readLE 2 r
  let (_, r) ← readLE 2 r
  let (_, r) ← readLE 4 r
  let (compressed0, r) ← readLE 4 r
  let (_, r) ← readLE 4 r
  let (name_len, r) ← readLE 2 r
  let (extra_len, r) ← readLE 2 r
  let (name_buf, r) ← readExact name_len r
  let (extra_buf, r) ← readExact extra_len r
  pure (⟨version, flags, method0, compressed0, name_buf, extra_buf⟩, r)

/-- Data-descriptor size fields and final comparison (`for_each_entry` lines
173–183): two u32 sizes without a ZIP64 extra, two u64 sizes with one; the
raw byte count `n` consumed by the decoder must equal the descriptor's
compressed size. -/
def finishDescriptor (extra : Extra) (n : Nat) (r : List Nat) (inv : Inv) : StepOut :=
  let w : Nat := if extra.zip64.isNone then 4 else 8
  match readLE w r with
  | none => .failed .ioError r (some inv)
  | some (csize, r1) =>
    match readLE w r1 with
    | none => .failed .ioError r1 (some inv)
    | some (_, r2) =>
      if n ≠ csize then .failed .dataDescriptorMismatch r2 (some inv)
      else .next r2 inv

/-- One local-file record (`for_each_entry` lines 91–196), starting just
after the `0x04034B50` signature.

The callback's interaction with the entry reader is abstracted: for an
`Ok(reader)` non-streaming entry it consumes `min bytesRead compressed` raw
bytes (clamped to the stream) — for the Deflate case `bytesRead` stands for
the raw consumption its decoded reads induce; for an `Err` entry it has no
reader and consumes nothing. In the streaming branch the decoder is drained
to its end-of-stream marker after the callback, so the raw consumption there
is the decoder's, independent of the callback's reads. The `rest` recorded on
`failed` paths is a best-effort cursor (the source leaves the stream position
unspecified after an error, and no theorem below depends on it). -/
def processLocal (cb : Callback) (dec : Decoder) (r : List Nat) : StepOut :=
  match readHeader r with
  | none => .failed .ioError r none
  | some (h, rest0) =>
    let extra := parse_extra h.name_buf h.extra_buf {}
    let compressed := reconcile h.compressed0 extra.zip64 Zip64Extra.compressed
    let name := entryName h.flags h.name_buf extra
    let methodR := entryMethod h.version h.flags h.method0
    if h.flags &&& 8 ≠ 0 then
      match methodR with
      | .error e =>
        let inv : Inv := (name, .err e)
        match (cb name (.err e)).act with
        | .error _ => .failed .ioError rest0 (some inv)
        | .ok _ => .failed .unknownDataSize rest0 (some inv)
      | .ok .store =>
        let inv : Inv := (name, .err .unknownDataSize)
        match (cb name (.err .unknownDataSize)).act with
        | .error _ => .failed .ioError rest0 (some inv)
        | .ok _ => .failed .unknownDataSize rest0 (some inv)
      | .ok .deflate =>
        let inv : Inv := (name, .reader)
        match (cb name .reader).act with
        | .error _ => .failed .ioError rest0 (some inv)
        | .ok act =>
          match dec rest0 with
          | none => .failed .ioError rest0 (some inv)
          | some nRaw =>
            let n := min nRaw rest0.length
            let r1 := rest0.drop n
            match act with
            | .stop => .stopped r1 inv
            | .cont =>
              match readLE 4 r1 with
              | none => .failed .ioError r1 (some inv)
              | some (sig, r2) =>
                if sig = 0x08074b50 then
                  match readLE 4 r2 with
                  | none => .failed .ioError r2 (some inv)
                  | some (_, r3) => finishDescriptor extra n r3 inv
                else finishDescriptor extra n r2 inv
    else
      let avail := min compressed rest0.length
      match methodR with
      | .error e =>
        let inv : Inv := (name, .err e)
        match (cb name (.err e)).act with
        | .error _ => .failed .ioError rest0 (some inv)
        | .ok .stop => .stopped rest0 inv
        | .ok .cont => .next (rest0.drop avail) inv
      | .ok _ =>
        let inv : Inv := (name, .reader)
        let out := cb name .reader
        let k := min out.bytesRead avail
        match out.act with
        | .error _ => .failed .ioError (rest0.drop k) (some inv)
        | .ok .stop => .stopped (rest0.drop k) inv
        | .ok .cont => .next (rest0.drop avail) inv

/-- The record-dispatch loop of `for_each_entry` (lines 82–198), fuelled
(each iteration consumes the 4 signature bytes, so fuel `s.length + 1` —
supplied by `for_each_entry` — always suffices; see `zipLoop_congr`).
Returns the result, the remaining stream (cursor position) and the list of
callback invocations in order. -/
def zipLoop (cb : Callback) (dec : Decoder) :
    Nat → List Nat → Except ZipError Unit × List Nat × List Inv
  | 0, s => (.error .ioError, s, [])
  | fuel + 1, s =>
    match readLE 4 s with
    | none => (.error .ioError, s, [])
    | some (sig, r) =>
      if sig = 0x04034b50 then
        match processLocal cb dec r with
        | .next rest inv =>
          let out := zipLoop cb dec fuel rest
          (out.1, out.2.1, inv :: out.2.2)
        | .stopped rest inv => (.ok (), rest, [inv])
        | .failed e rest inv? => (.error e, rest, inv?.toList)
      else if sig = 0x02014b50 ∨ sig = 0x06054b50 ∨ sig = 0x06064b50 ∨
          sig = 0x07064b50 ∨ sig = 0x08064b50 then
        (.ok (), r, [])
      else (.error (.unknownRecord sig), r, [])

/-- `for_each_entry(zip, f)` over a byte stream. -/
def for_each_entry (cb : Callback) (dec : Decoder) (s : List Nat) :
    Except ZipError Unit × List Nat × List Inv :=
  zipLoop cb dec (s.length + 1) s

/-- The five record signatures that halt iteration normally. -/
def centralSigs : List Nat :=
  [0x02014b50, 0x06054b50, 0x06064b50, 0x07064b50, 0x08064b50]

/-- A serialized ZIP64 extra record (`tag 0x0001`) holding the two u64
sizes. -/
def zip64ExtraRecord (uncompressed compressed : Nat) : List Nat :=
  leBytes 2 0x0001 ++ (leBytes 2 16 ++ (leBytes 8 uncompressed ++ leBytes 8 compressed))

/-- A serialized Info-ZIP Unicode-path extra record (`tag 0x7075`):
version byte, name CRC-32, UTF-8 name payload. -/
def unicodePathRecord (version crc : Nat) (payload : List Nat) : List Nat :=
  leBytes 2 0x7075 ++ (leBytes 2 (5 + payload.length) ++
    (leBytes 1 version ++ (leBytes 4 crc ++ payload)))

/-- A serialized local-file record: signature, the ten fixed header fields,
name and extras buffers, followed by `body` (the entry's data and everything
after it). -/
def localEntry (version flags method time date crc csize usize : Nat)
    (name extras body : List Nat) : List Nat :=
  leBytes 4 0x04034b50 ++ (leBytes 2 version ++ (leBytes 2 flags ++
  (leBytes 2 method ++ (leBytes 2 time ++ (leBytes 2 date ++ (leBytes 4 crc ++
  (leBytes 4 csize ++ (leBytes 4 usize ++ (leBytes 2 name.length ++
  (leBytes 2 extras.length ++ (name ++ (extras ++ body))))))))))))

/-! ## Decompression dispatcher (`src/decompressor.rs`) -/

/-- A decompression command: executable name and arguments. -/
structure DecompressionCommand where
  cmd : String
  args : List String
deriving DecidableEq, Repr

/-- The `DECOMPRESSION_COMMANDS` extension table. -/
def decompressionCommandFor (ext : String) : Option DecompressionCommand :=
  if ext = "gz" then some ⟨"gunzip", ["-c"]⟩
  else if ext = "bz2" then some ⟨"bunzip2", ["-c"]⟩
  else if ext = "xz" then some ⟨"unxz", ["-c"]⟩
  else if ext = "lzma" then some ⟨"unlzma", ["-c"]⟩
  else none

/-- The `TAR_ARCHIVE_FORMATS` globs; each `*X` glob matches exactly the
paths ending in `X` (globset's `*` may match any characters, including an
empty string). -/
def tarSuffixes : List String :=
  [".tar.gz", ".tar.xz", ".tar.bz2", ".tgz", ".txz", ".tbz2"]

/-- `is_tar_archive`. -/
def is_tar_archive (p : String) : Bool :=
  tarSuffixes.any (fun suf => suf.data.isSuffixOf p.data)

/-- `Path::file_name` as character list: the component after the last `/`. -/
def fileNameChars (p : String) : List Char :=
  ((p.data.reverse.takeWhile (fun c => c ≠ '/')).reverse)

/-- `Path::extension`: the part of the file name after its last `.`, absent
when there is no dot or the only dot is the leading one of a hidden file.
(The special components `.` and `..` are not modelled.) -/
def pathExtension (p : String) : Option String :=
  let f := (fileNameChars p).reverse
  let extRev := f.takeWhile (fun c => c ≠ '.')
  if extRev.length = f.length then none
  else if f.drop (extRev.length + 1) = [] then none
  else some (String.mk extRev.reverse)

/-- A spawned child process, by what `get_reader` observes of it: its full
stderr contents and a token for its stdout handle. -/
structure Child where
  stderr : List Nat
  stdout : Nat
deriving DecidableEq, Repr

/-- A Rust panic (an `unwrap` of `None`). -/
inductive RunPanic where
  | panic
deriving DecidableEq, Repr

/-- `get_reader(path, no_messages)`. The process-spawning effect is the
parameter `spawn`: `none` models a spawn failure, `some child` a started
process. `no_messages` only gates the user-visible warning and does not
change the returned value. The two `unwrap()` calls of the source (on
`path.extension().and_then(OsStr::to_str)` and on the command-table lookup)
are modelled as the `.error .panic` outcomes. -/
def get_reader (p : String) (spawn : DecompressionCommand → Option Child)
    (no_messages : Bool) : Except RunPanic (Option Nat) :=
  if is_tar_archive p then .ok none
  else
    match pathExtension p with
    | none => .error .panic
    | some ext =>
      match decompressionCommandFor ext with
      | none => .error .panic
      | some c =>
        match spawn c with
        | some child =>
          if child.stderr.isEmpty then .ok (some child.stdout)
          else .ok none
        | none => .ok none

/-! ## Searcher error surface (`grep/src/lib.rs`) and the non-newline asserter -/

/-- `grep::Error` (`Regex` carries its formatted message; the hidden
`__Nonexhaustive` variant is carried along as declared). -/
inductive GrepErr where
  | regex (message : String)
  | literalNotAllowed (c : Char)
  | nonexhaustive
deriving DecidableEq, Repr

/-- A regex syntax tree, restricted to the structure §4.2 of the spec
inspects: literals, byte classes, dot (with the engine's dot-matches-any
setting), concatenation, alternation and repetition. -/
inductive RegexAst where
  | emptyRe
  | lit (b : Nat)
  | cls (bs : List Nat)
  | dot (matchesAny : Bool)
  | concat (a b : RegexAst)
  | alt (a b : RegexAst)
  | rep (a : RegexAst)
deriving DecidableEq, Repr

/-- Can a match of `p` contain the byte `t`? Per §4.2: an explicit literal of
`t`, a class containing it, an unconstrained dot with dot-matches-any active,
or a repetition of a sub-expression that can match it; concatenations and
alternations recurse. -/
def canMatchByte (t : Nat) : RegexAst → Bool
  | .emptyRe => false
  | .lit b => b = t
  | .cls bs => bs.contains t
  | .dot m => m
  | .concat a b => canMatchByte t a || canMatchByte t b
  | .alt a b => canMatchByte t a || canMatchByte t b
  | .rep a => canMatchByte t a

/-- Modelled from the spec: the `nonl` module (the non-newline asserter) is
declared in `grep/src/lib.rs` (`mod nonl;`) but its source file is not among
the provided sources. Per §4.2 it inspects the AST and, on rejection, fails
with `LiteralNotAllowed` carrying the line-terminator byte — as a `char`,
matching the `Error::LiteralNotAllowed(char)` declaration in `lib.rs`. -/
def nonlAssert (term : Nat) (p : RegexAst) : Except GrepErr RegexAst :=
  if canMatchByte term p then .error (.literalNotAllowed (Char.ofNat term))
  else .ok p

/-- The remaining stream recorded in a `StepOut`. -/
def StepOut.restOf : StepOut → List Nat
  | .next rest _ => rest
  | .stopped rest _ => rest
  | .failed _ rest _ => rest

/-! # Theorems

First, the helper lemmas about the byte-stream primitives, then the lemmas
about the ZIP loop, then one theorem (with witness or counterexample) per
claim. -/

theorem length_leBytes (w n : Nat) : (leBytes w n).length = w := by
  induction w generalizing n with
  | zero => rfl
  | succ w ih => simp [leBytes, ih]

theorem leNat_leBytes_append {w n : Nat} (r : List Nat) (h : n < 256 ^ w) :
    leNat w (leBytes w n ++ r) = n := by
  induction w generalizing n with
  | zero =>
    have : n = 0 := by simpa using Nat.lt_one_iff.mp (by simpa using h)
    simp [this, leNat, leBytes]
  | succ w ih =>
    have hdiv : n / 256 < 256 ^ w := by
      rw [Nat.div_lt_iff_lt_mul (by norm_num)]
      calc n < 256 ^ (w + 1) := h
        _ = 256 ^ w * 256 := by ring
    show leNat (w + 1) (((n % 256) :: leBytes w (n / 256)) ++ r) = n
    rw [List.cons_append]
    show n % 256 + 256 * leNat w (leBytes w (n / 256) ++ r) = n
    rw [ih hdiv]
    omega

theorem drop_leBytes_append {w n : Nat} (r : List Nat) :
    (leBytes w n ++ r).drop w = r :=
  List.drop_left' (length_leBytes w n)

theorem readLE_leBytes {w n : Nat} (r : List Nat) (h : n < 256 ^ w) :
    readLE w (leBytes w n ++ r) = some (n, r) := by
  have hlen : w ≤ (leBytes w n ++ r).length := by
    rw [List.length_append, length_leBytes]; omega
  unfold readLE
  rw [if_pos hlen, leNat_leBytes_append r h, drop_leBytes_append]

theorem readExact_append {n : Nat} {a : List Nat} (r : List Nat) (h : a.length = n) :
    readExact n (a ++ r) = some (a, r) := by
  have hlen : n ≤ (a ++ r).length := by rw [List.length_append]; omega
  unfold readExact
  rw [if_pos hlen, List.take_left' h, List.drop_left' h]

theorem readLE_eq {w : Nat} {s t : List Nat} {v : Nat}
    (h : readLE w s = some (v, t)) :
    v = leNat w s ∧ t = s.drop w ∧ w ≤ s.length := by
  unfold readLE at h
  split at h
  · simp_all
  · simp at h

theorem readExact_eq {n : Nat} {s a t : List Nat}
    (h : readExact n s = some (a, t)) :
    a = s.take n ∧ t = s.drop n ∧ n ≤ s.length := by
  unfold readExact at h
  split at h
  · simp_all
  · simp at h

theorem readLE_suffix {w : Nat} {s t : List Nat} {v : Nat}
    (h : readLE w s = some (v, t)) : t <:+ s := by
  rcases readLE_eq h with ⟨-, ht, -⟩
  exact ht ▸ List.drop_suffix w s

theorem readExact_suffix {n : Nat} {s a t : List Nat}
    (h : readExact n s = some (a, t)) : t <:+ s := by
  rcases readExact_eq h with ⟨-, ht, -⟩
  exact ht ▸ List.drop_suffix n s

theorem leNat_take (w : Nat) (s : List Nat) : leNat w (s.take w) = leNat w s := by
  induction w generalizing s with
  | zero => rfl
  | succ w ih =>
    cases s with
    | nil => rfl
    | cons b r => simp [leNat, List.take_succ_cons, ih]

theorem readHeader_suffix {r t : List Nat} {h : Header}
    (hh : readHeader r = some (h, t)) : t <:+ r := by
  simp only [readHeader, bind, Option.bind_eq_some, pure] at hh
  obtain ⟨⟨v, r1⟩, h1, hh⟩ := hh
  obtain ⟨⟨f, r2⟩, h2, hh⟩ := hh
  obtain ⟨⟨m, r3⟩, h3, hh⟩ := hh
  obtain ⟨⟨t1, r4⟩, h4, hh⟩ := hh
  obtain ⟨⟨d1, r5⟩, h5, hh⟩ := hh
  obtain ⟨⟨c1, r6⟩, h6, hh⟩ := hh
  obtain ⟨⟨c0, r7⟩, h7, hh⟩ := hh
  obtain ⟨⟨u0, r8⟩, h8, hh⟩ := hh
  obtain ⟨⟨nl, r9⟩, h9, hh⟩ := hh
  obtain ⟨⟨el, r10⟩, h10, hh⟩ := hh
  obtain ⟨⟨nb, r11⟩, h11, hh⟩ := hh
  obtain ⟨⟨eb, r12⟩, h12, hh⟩ := hh
  have : r12 = t := by
    have := congrArg Prod.snd (Option.some.inj hh)
    simpa using this
  subst this
  exact ((((((((((((readExact_suffix h12).trans (readExact_suffix h11)).trans
    (readLE_suffix h10)).trans (readLE_suffix h9)).trans
    (readLE_suffix h8)).trans (readLE_suffix h7)).trans
    (readLE_suffix h6)).trans (readLE_suffix h5)).trans
    (readLE_suffix h4)).trans (readLE_suffix h3)).trans
    (readLE_suffix h2)).trans (readLE_suffix h1))

theorem finishDescriptor_suffix (extra : Extra) (n : Nat) (r : List Nat) (inv : Inv) :
    (finishDescriptor extra n r inv).restOf <:+ r := by
  simp only [finishDescriptor]
  split
  · simpa [StepOut.restOf] using List.suffix_refl r
  · rename_i csize r1 hr1
    split
    · simpa [StepOut.restOf] using readLE_suffix hr1
    · rename_i p r2 hr2
      have h2 : r2 <:+ r := (readLE_suffix hr2).trans (readLE_suffix hr1)
      split <;> simpa [StepOut.restOf] using h2

theorem processLocal_suffix (cb : Callback) (dec : Decoder) (r : List Nat) :
    (processLocal cb dec r).restOf <:+ r := by
  simp only [processLocal]
  split
  · simpa [StepOut.restOf] using List.suffix_refl r
  · rename_i h rest0 hh
    have hs0 : rest0 <:+ r := readHeader_suffix hh
    have hdrop : ∀ k : Nat, rest0.drop k <:+ r :=
      fun k => (List.drop_suffix k rest0).trans hs0
    split
    · -- streaming branch
      split
      · split <;> simpa [StepOut.restOf] using hs0
      · split <;> simpa [StepOut.restOf] using hs0
      · split
        · simpa [StepOut.restOf] using hs0
        · split
          · simpa [StepOut.restOf] using hs0
          · rename_i nRaw hdec
            split
            · simpa [StepOut.restOf] using hdrop _
            · split
              · simpa [StepOut.restOf] using hdrop _
              · rename_i sig r2 hr2
                have h2 : r2 <:+ r := (readLE_suffix hr2).trans (hdrop _)
                split
                · split
                  · simpa [StepOut.restOf] using h2
                  · rename_i p r3 hr3
                    exact (finishDescriptor_suffix _ _ _ _).trans
                      ((readLE_suffix hr3).trans h2)
                · exact (finishDescriptor_suffix _ _ _ _).trans h2
    · -- non-streaming branch
      split
      · split
        · simpa [StepOut.restOf] using hs0
        · simpa [StepOut.restOf] using hs0
        · simpa [StepOut.restOf] using hdrop _
      · split
        · simpa [StepOut.restOf] using hdrop _
        · simpa [StepOut.restOf] using hdrop _
        · simpa [StepOut.restOf] using hdrop _

theorem finishDescriptor_not_stopped (extra : Extra) (n : Nat) (r : List Nat)
    (inv : Inv) (t : List Nat) (inv' : Inv) :
    finishDescriptor extra n r inv ≠ .stopped t inv' := by
  simp only [finishDescriptor]
  split
  · simp
  · split
    · simp
    · split <;> simp

theorem processLocal_stopped_act {cb : Callback} {dec : Decoder} {r t : List Nat}
    {inv : Inv} (h : processLocal cb dec r = .stopped t inv) :
    (cb inv.1 inv.2).act = .ok .stop := by
  simp only [processLocal] at h
  split at h
  · simp at h
  · rename_i hd rest0 hh
    split at h
    · -- streaming branch
      split at h
      · split at h <;> simp_all
      · split at h <;> simp_all
      · split at h
        · simp at h
        · rename_i act hact
          split at h
          · simp at h
          · rename_i nRaw hdec
            split at h
            · -- act = .stop
              rw [StepOut.stopped.injEq] at h
              rw [← h.2]
              exact hact
            · -- act = .cont
              split at h
              · simp at h
              · split at h
                · split at h
                  · simp at h
                  · exact absurd h (finishDescriptor_not_stopped _ _ _ _ _ _)
                · exact absurd h (finishDescriptor_not_stopped _ _ _ _ _ _)
    · -- non-streaming branch
      split at h
      · rename_i e
        split at h
        · simp at h
        · rename_i hact
          rw [StepOut.stopped.injEq] at h
          rw [← h.2]
          exact hact
        · simp at h
      · split at h
        · simp at h
        · rename_i hact
          rw [StepOut.stopped.injEq] at h
          rw [← h.2]
          exact hact
        · simp at h

theorem zipLoop_congr (cb : Callback) (dec : Decoder) :
    ∀ f1 f2 s, s.length < f1 → s.length < f2 →
      zipLoop cb dec f1 s = zipLoop cb dec f2 s := by
  intro f1
  induction f1 with
  | zero => intro f2 s h1 h2; omega
  | succ f1 ih =>
    intro f2 s h1 h2
    cases f2 with
    | zero => omega
    | succ f2 =>
      simp only [zipLoop]
      cases hr : readLE 4 s with
      | none => rfl
      | some v =>
        obtain ⟨sig, r⟩ := v
        by_cases hsig : sig = 0x04034b50
        · simp only [hsig, if_pos]
          cases hp : processLocal cb dec r with
          | next rest inv =>
            have hsfx : rest <:+ r := by
              have hs := processLocal_suffix cb dec r
              rw [hp] at hs
              exact hs
            have hrd : r = s.drop 4 := (readLE_eq hr).2.1
            have hr4 : 4 ≤ s.length := (readLE_eq hr).2.2
            have hlen : rest.length ≤ r.length := hsfx.length_le
            have hrl : r.length = s.length - 4 := by rw [hrd]; simp
            have hf1 : rest.length < f1 := by omega
            have hf2 : rest.length < f2 := by omega
            simp only [ih f2 rest hf1 hf2]
          | stopped rest inv => rfl
          | failed e rest inv? => rfl
        · simp only [if_neg hsig]

theorem charToNat_ofNat {n : Nat} (h : n < 256) : (Char.ofNat n).toNat = n := by
  have hv : n.isValidChar := Or.inl (by omega)
  rw [Char.ofNat]
  simp [hv, Char.toNat, Char.ofNatAux, UInt32.toNat]

theorem isPrefixOf_take {p s : List Nat} {n : Nat} (h : p.length ≤ n) :
    p.isPrefixOf (s.take n) = p.isPrefixOf s := by
  induction p generalizing s n with
  | nil => simp [List.isPrefixOf]
  | cons a as ih =>
    cases s with
    | nil => simp
    | cons b bs =>
      cases n with
      | zero => simp at h
      | succ m =>
        simp only [List.take_succ_cons, List.isPrefixOf]
        rw [ih (by simpa using Nat.le_of_succ_le_succ h)]

theorem from_slice_take (s : List Nat) :
    Magic.from_slice (s.take 4) = Magic.from_slice s := by
  unfold Magic.from_slice
  rw [isPrefixOf_take (by simp), isPrefixOf_take (by simp), isPrefixOf_take (by simp)]

theorem new_buf_take (s : List Nat) :
    (MagicReader.new s).buf.take (MagicReader.new s).lim = s.take 4 := by
  show (s.take 4 ++ List.replicate (4 - s.length) 0).take (min 4 s.length) = s.take 4
  rw [List.take_append_of_le_length (by simp), List.take_take]
  apply List.take_eq_take.mpr
  omega

theorem magic_new (s : List Nat) :
    (MagicReader.new s).magic = Magic.from_slice s := by
  unfold MagicReader.magic
  rw [new_buf_take, from_slice_take]

theorem readToEnd_spec :
    ∀ (fuel : Nat) (m : MagicReader (List Nat)) (k : Nat),
      1 ≤ k → m.pos ≤ m.lim → m.lim ≤ m.buf.length →
      m.lim - m.pos + m.inner.length + 2 ≤ fuel →
      readToEnd listRead fuel m k =
        some ((m.buf.drop m.pos).take (m.lim - m.pos) ++ m.inner) := by
  intro fuel
  induction fuel with
  | zero => intro m k hk hpl hlb hf; omega
  | succ fuel ih =>
    intro m k hk hpl hlb hf
    obtain ⟨inner, pos, lim, buf⟩ := m
    simp only at hpl hlb hf ⊢
    by_cases hpos : pos < lim
    · have hc1 : 1 ≤ min (lim - pos) k := by omega
      by_cases hck : min (lim - pos) k < k
      · -- the peek buffer is exhausted this call and the inner reader tops up
        have hcount : min (lim - pos) k = lim - pos := by omega
        have hread : MagicReader.read listRead ⟨inner, pos, lim, buf⟩ k =
            .ok ((buf.drop pos).take (lim - pos) ++ inner.take (k - (lim - pos)),
              ⟨inner.drop (k - (lim - pos)), pos + (lim - pos), lim, buf⟩) := by
          simp only [MagicReader.read, listRead]
          rw [if_pos hpos]
          simp only [hcount, if_pos (by omega : lim - pos < k)]
        have hchunkne : (buf.drop pos).take (lim - pos) ≠ [] := by
          have hlen : ((buf.drop pos).take (lim - pos)).length = lim - pos := by
            simp
            omega
          intro hnil
          rw [hnil] at hlen
          simp at hlen
          omega
        have hrec := ih ⟨inner.drop (k - (lim - pos)), pos + (lim - pos), lim, buf⟩ k hk
          (by simp; omega) (by simpa using hlb) (by simp; omega)
        simp only at hrec
        simp only [readToEnd, hread, hrec]
        rw [if_neg (by simp [List.isEmpty_iff, hchunkne])]
        have hz : lim - (pos + (lim - pos)) = 0 := by omega
        rw [hz]
        simp [List.take_append_drop]
      · -- the caller buffer is filled entirely from the peek buffer
        have hcount : min (lim - pos) k = k := by omega
        have hread : MagicReader.read listRead ⟨inner, pos, lim, buf⟩ k =
            .ok ((buf.drop pos).take k, ⟨inner, pos + k, lim, buf⟩) := by
          simp only [MagicReader.read, listRead]
          rw [if_pos hpos]
          simp only [hcount, if_neg (by omega : ¬k < k)]
        have hchunkne : (buf.drop pos).take k ≠ [] := by
          have hlen : ((buf.drop pos).take k).length = k := by
            simp
            omega
          intro hnil
          rw [hnil] at hlen
          simp at hlen
          omega
        have hrec := ih ⟨inner, pos + k, lim, buf⟩ k hk
          (by simp; omega) (by simpa using hlb) (by simp; omega)
        simp only at hrec
        simp only [readToEnd, hread, hrec]
        rw [if_neg (by simp [List.isEmpty_iff, hchunkne])]
        have hsplit : lim - pos = k + (lim - pos - k) := by omega
        rw [hsplit, List.take_add, List.drop_drop]
        simp [Nat.add_comm pos k]
        congr 1
        omega
    · -- replay finished: reads come directly from the inner list
      have hz : lim - pos = 0 := by omega
      have hread : MagicReader.read listRead ⟨inner, pos, lim, buf⟩ k =
          .ok (inner.take k, ⟨inner.drop k, pos, lim, buf⟩) := by
        simp only [MagicReader.read, listRead]
        rw [if_neg hpos]
      cases inner with
      | nil =>
        simp only [readToEnd, hread]
        simp [hz]
      | cons a t =>
        have htne : (a :: t).take k ≠ [] := by
          cases k with
          | zero => omega
          | succ k => simp
        have hrec := ih ⟨(a :: t).drop k, pos, lim, buf⟩ k hk
          (by simpa using hpl) (by simpa using hlb) (by simp; simp at hf; omega)
        simp only at hrec
        simp only [readToEnd, hread, hrec]
        rw [if_neg (by simp [List.isEmpty_iff, htne])]
        rw [hz] at *
        simp [List.take_append_drop]

/-- C7: reading the `MagicReader` wrapper to EOF (with any positive chunk
size and sufficient fuel) yields exactly the underlying byte stream: the
peeked bytes are replayed first and all subsequent bytes come unchanged from
the inner reader, so the wrapper and the bare stream are observationally
equivalent as byte producers. -/
theorem claim_C7 (s : List Nat) (k fuel : Nat) (hk : 1 ≤ k)
    (hfuel : s.length + 2 ≤ fuel) :
    readToEnd listRead fuel (MagicReader.new s) k = some s := by
  have hlim : (MagicReader.new s).lim = min 4 s.length := rfl
  have hbuflen : (MagicReader.new s).buf.length = min 4 s.length + (4 - s.length) := by
    show (s.take 4 ++ List.replicate (4 - s.length) 0).length = _
    simp
  have h := readToEnd_spec fuel (MagicReader.new s) k hk
    (by rw [hlim]; exact Nat.zero_le _)
    (by rw [hlim, hbuflen]; omega)
    (by
      show min 4 s.length - 0 + (s.drop 4).length + 2 ≤ fuel
      simp
      omega)
  rw [h]
  show some (((MagicReader.new s).buf.drop 0).take (min 4 s.length - 0) ++ s.drop 4) = some s
  rw [List.drop_zero, Nat.sub_zero]
  rw [show (min 4 s.length) = (MagicReader.new s).lim from rfl, new_buf_take]
  rw [List.take_append_drop]

/-- Witness for C7 at a concrete stream and chunk size. -/
theorem claim_C7_witness :
    readToEnd listRead 10 (MagicReader.new [1, 2, 3, 4, 5]) 3 = some [1, 2, 3, 4, 5] :=
  claim_C7 [1, 2, 3, 4, 5] 3 10 (by omega) (by simp)

/-- C8: `Magic::from_slice` returns `Gzip` iff the slice starts with
`1F 8B`, `Zip` iff it starts with `50 4B 03 04` or `50 4B 05 06`, and
`Unknown` otherwise (in particular on the empty or too-short slice); and
`magic()` on a freshly constructed `MagicReader` agrees with `from_slice` on
the underlying stream. -/
theorem claim_C8 (buf : List Nat) :
    (Magic.from_slice buf = .gzip ↔ ∃ t, buf = 0x1f :: 0x8b :: t) ∧
    (Magic.from_slice buf = .zip ↔
      ((∃ t, buf = 0x50 :: 0x4b :: 0x03 :: 0x04 :: t) ∨
       (∃ t, buf = 0x50 :: 0x4b :: 0x05 :: 0x06 :: t))) ∧
    (Magic.from_slice buf = .unknown ↔
      (¬ (∃ t, buf = 0x1f :: 0x8b :: t) ∧
       ¬ (∃ t, buf = 0x50 :: 0x4b :: 0x03 :: 0x04 :: t) ∧
       ¬ (∃ t, buf = 0x50 :: 0x4b :: 0x05 :: 0x06 :: t))) ∧
    (MagicReader.new buf).magic = Magic.from_slice buf := by
  refine ⟨?_, ?_, ?_, magic_new buf⟩ <;>
    (rcases buf with _ | ⟨b0, _ | ⟨b1, _ | ⟨b2, _ | ⟨b3, t⟩⟩⟩⟩ <;>
      simp [Magic.from_slice, List.isPrefixOf] <;>
      (try split_ifs) <;> (try simp_all) <;> (try omega))

/-- C10: while peeked bytes remain, a read with a caller buffer larger than
what is buffered also attempts one inner read; an error from that inner read
is discarded and the call returns `Ok` with just the buffered bytes. -/
theorem claim_C10 {σ : Type} (rd : ReadFn σ) (m : MagicReader σ) (k : Nat)
    (hpos : m.pos < m.lim) (hk : m.lim - m.pos < k)
    (herr : rd m.inner (k - (m.lim - m.pos)) = .error ()) :
    MagicReader.read rd m k =
      .ok ((m.buf.drop m.pos).take (m.lim - m.pos), { m with pos := m.lim }) := by
  simp only [MagicReader.read]
  rw [if_pos hpos]
  have hcount : min (m.lim - m.pos) k = m.lim - m.pos := by omega
  simp only [hcount]
  rw [if_pos hk, herr]
  have hp : m.pos + (m.lim - m.pos) = m.lim := by omega
  rw [hp]

/-- Witness for C10: an always-failing inner reader, two buffered bytes, a
four-byte caller buffer. -/
theorem claim_C10_witness :
    MagicReader.read (fun (_ : Unit) (_ : Nat) => (.error () : Except Unit (List Nat × Unit)))
      ⟨(), 0, 2, [7, 8, 0, 0]⟩ 4 = .ok ([7, 8], ⟨(), 2, 2, [7, 8, 0, 0]⟩) := by
  have h := @claim_C10 Unit (fun _ _ => .error ()) ⟨(), 0, 2, [7, 8, 0, 0]⟩ 4
    (by decide) (by decide) rfl
  simpa using h

/-- C3 counterexample: `get_reader` on a path that is not a tar archive and
whose extension is not in the decompression table does not return normally —
it panics (the source unwraps the `DECOMPRESSION_COMMANDS` lookup). -/
theorem claim_C3_counterexample :
    get_reader "file.txt" (fun _ => none) false = .error .panic := by rfl

/-- C3 amended: for every path that is a tar archive or whose extension is
one of the supported compression extensions, `get_reader` terminates
normally, returning either a stream handle or nothing and never a typed
error; for other paths it may panic on the extension or command lookup. -/
theorem claim_C3_amended (p : String) (spawn : DecompressionCommand → Option Child)
    (nm : Bool)
    (h : is_tar_archive p = true ∨
      ∃ e, pathExtension p = some e ∧ (decompressionCommandFor e).isSome = true) :
    ∃ r : Option Nat, get_reader p spawn nm = .ok r := by
  unfold get_reader
  rcases h with htar | ⟨e, he, hc⟩
  · rw [if_pos htar]
    exact ⟨none, rfl⟩
  · by_cases htar : is_tar_archive p
    · rw [if_pos htar]
      exact ⟨none, rfl⟩
    · rw [if_neg (by simpa using htar), he]
      dsimp only
      obtain ⟨c, hc'⟩ := Option.isSome_iff_exists.mp hc
      rw [hc']
      dsimp only
      cases hspawn : spawn c with
      | none => exact ⟨none, rfl⟩
      | some child =>
        dsimp only
        by_cases hs : child.stderr.isEmpty
        · rw [if_pos hs]
          exact ⟨some child.stdout, rfl⟩
        · rw [if_neg hs]
          exact ⟨none, rfl⟩

/-- Witness for C3 amended: a `.gz` path with a failing spawn. -/
theorem claim_C3_witness :
    ∃ r : Option Nat, get_reader "a.gz" (fun _ => none) false = .ok r :=
  claim_C3_amended "a.gz" (fun _ => none) false
    (Or.inr ⟨"gz", by rfl, by rfl⟩)

/-- C9: when the non-newline asserter rejects a pattern, the error is
`LiteralNotAllowed` carrying exactly the forbidden line-terminator byte
(as the `char` with that code, per the declaration in `grep/src/lib.rs`). -/
theorem claim_C9 (term : Nat) (p : RegexAst) (e : GrepErr) (hterm : term < 256)
    (h : nonlAssert term p = .error e) :
    e = .literalNotAllowed (Char.ofNat term) ∧ (Char.ofNat term).toNat = term := by
  refine ⟨?_, charToNat_ofNat hterm⟩
  unfold nonlAssert at h
  split at h
  · injection h with h1
    exact h1.symm
  · simp at h

/-- Witness for C9: the pattern is a literal of the terminator byte `\n`. -/
theorem claim_C9_witness :
    GrepErr.literalNotAllowed (Char.ofNat 10) = .literalNotAllowed (Char.ofNat 10) ∧
    (Char.ofNat 10).toNat = 10 :=
  claim_C9 10 (.lit 10) (.literalNotAllowed (Char.ofNat 10)) (by omega) (by rfl)

theorem zipLoop_succ_none {cb : Callback} {dec : Decoder} {fuel : Nat} {s : List Nat}
    (hr : readLE 4 s = none) :
    zipLoop cb dec (fuel + 1) s = (.error .ioError, s, []) := by
  simp only [zipLoop, hr]

theorem zipLoop_succ_local (cb : Callback) (dec : Decoder) (fuel : Nat)
    {s r : List Nat} (hr : readLE 4 s = some (0x04034b50, r)) :
    zipLoop cb dec (fuel + 1) s =
      (match processLocal cb dec r with
       | .next rest inv => ((zipLoop cb dec fuel rest).1, (zipLoop cb dec fuel rest).2.1,
           inv :: (zipLoop cb dec fuel rest).2.2)
       | .stopped rest inv => (.ok (), rest, [inv])
       | .failed e rest inv? => (.error e, rest, inv?.toList)) := by
  simp only [zipLoop, hr]
  simp

theorem zipLoop_succ_central (cb : Callback) (dec : Decoder) (fuel : Nat)
    {s r : List Nat} {sig : Nat} (hr : readLE 4 s = some (sig, r))
    (hc : sig ∈ centralSigs) :
    zipLoop cb dec (fuel + 1) s = (.ok (), r, []) := by
  simp only [zipLoop, hr]
  have hne : sig ≠ 0x04034b50 := by
    simp [centralSigs] at hc
    rcases hc with h | h | h | h | h <;> omega
  rw [if_neg hne, if_pos (by simpa [centralSigs] using hc)]

theorem zipLoop_succ_unknown (cb : Callback) (dec : Decoder) (fuel : Nat)
    {s r : List Nat} {sig : Nat} (hr : readLE 4 s = some (sig, r))
    (h1 : sig ≠ 0x04034b50) (h2 : sig ∉ centralSigs) :
    zipLoop cb dec (fuel + 1) s = (.error (.unknownRecord sig), r, []) := by
  simp only [zipLoop, hr]
  rw [if_neg h1, if_neg (by simpa [centralSigs] using h2)]

/-- C6: `for_each_entry` dispatches on the 4-byte little-endian signature at
a record boundary: `0x04034B50` is processed as a local file header (via
`processLocal`), the five central-directory and post-body signatures halt
iteration normally with `Ok`, and any other signature fails with
`UnknownRecord` carrying that signature. -/
theorem claim_C6 (cb : Callback) (dec : Decoder) (sig : Nat) (rest : List Nat)
    (hsig : sig < 2 ^ 32) :
    (sig = 0x04034b50 →
      for_each_entry cb dec (leBytes 4 sig ++ rest) =
        (match processLocal cb dec rest with
         | .next r1 inv => ((for_each_entry cb dec r1).1, (for_each_entry cb dec r1).2.1,
             inv :: (for_each_entry cb dec r1).2.2)
         | .stopped r1 inv => (.ok (), r1, [inv])
         | .failed e r1 inv? => (.error e, r1, inv?.toList))) ∧
    (sig ∈ centralSigs →
      for_each_entry cb dec (leBytes 4 sig ++ rest) = (.ok (), rest, [])) ∧
    (sig ≠ 0x04034b50 → sig ∉ centralSigs →
      for_each_entry cb dec (leBytes 4 sig ++ rest) =
        (.error (.unknownRecord sig), rest, [])) := by
  have h256 : sig < 256 ^ 4 := by
    have he : (256 : Nat) ^ 4 = 2 ^ 32 := by norm_num
    rw [he]
    exact hsig
  have hr : readLE 4 (leBytes 4 sig ++ rest) = some (sig, rest) := readLE_leBytes rest h256
  have hfe : for_each_entry cb dec (leBytes 4 sig ++ rest) =
      zipLoop cb dec ((4 + rest.length) + 1) (leBytes 4 sig ++ rest) := by
    unfold for_each_entry
    congr 2
    rw [List.length_append, length_leBytes]
  refine ⟨?_, ?_, ?_⟩
  · intro hl
    subst hl
    rw [hfe, zipLoop_succ_local cb dec _ hr]
    rcases hp : processLocal cb dec rest with ⟨r1, inv⟩ | ⟨r1, inv⟩ | ⟨e, r1, inv?⟩
    · dsimp only
      have hs : r1 <:+ rest := by
        have hq := processLocal_suffix cb dec rest
        rw [hp] at hq
        exact hq
      have h1 : r1.length < 4 + rest.length := by
        have := hs.length_le
        omega
      rw [show zipLoop cb dec (4 + rest.length) r1 = for_each_entry cb dec r1 from
        zipLoop_congr cb dec _ _ _ h1 (by omega)]
    · rfl
    · rfl
  · intro hc
    rw [hfe, zipLoop_succ_central cb dec _ hr hc]
  · intro h1 h2
    rw [hfe, zipLoop_succ_unknown cb dec _ hr h1 h2]

/-- Witness for C6 at a concrete central-directory signature. -/
theorem claim_C6_witness :
    for_each_entry (fun _ _ => ⟨0, .ok .cont⟩) (fun _ => none)
      (leBytes 4 0x06054b50 ++ [9, 9]) = (.ok (), [9, 9], []) :=
  (claim_C6 (fun _ _ => ⟨0, .ok .cont⟩) (fun _ => none) 0x06054b50 [9, 9]
    (by norm_num)).2.1 (by simp [centralSigs])

/-- C2 counterexample: on the stream holding exactly an end-of-central-
directory signature, `for_each_entry` returns `Ok` but the remaining stream
is empty — the four signature bytes were consumed, so the next bytes of the
stream are not a central-directory signature. -/
theorem claim_C2_counterexample :
    for_each_entry (fun _ _ => ⟨0, .ok .cont⟩) (fun _ => none)
      [0x50, 0x4b, 0x05, 0x06] = (.ok (), [], []) ∧
    (∀ sig ∈ centralSigs, (leBytes 4 sig).isPrefixOf ([] : List Nat) = false) := by
  constructor
  · rfl
  · decide

theorem zipLoop_ok_shape (cb : Callback) (dec : Decoder) :
    ∀ fuel s, s.length < fuel → (zipLoop cb dec fuel s).1 = .ok () →
      (∃ pre sigBytes, s = pre ++ sigBytes ++ (zipLoop cb dec fuel s).2.1 ∧
        sigBytes.length = 4 ∧ leNat 4 sigBytes ∈ centralSigs) ∨
      (∃ inv ∈ (zipLoop cb dec fuel s).2.2, (cb inv.1 inv.2).act = .ok .stop) := by
  intro fuel
  induction fuel with
  | zero => intro s h1 h2; omega
  | succ fuel ih =>
    intro s hlen hok
    rcases hr : readLE 4 s with _ | ⟨sig, r⟩
    · rw [zipLoop_succ_none hr] at hok
      simp at hok
    · have hrd : r = s.drop 4 := (readLE_eq hr).2.1
      have hr4 : 4 ≤ s.length := (readLE_eq hr).2.2
      by_cases hsig : sig = 0x04034b50
      · subst hsig
        rw [zipLoop_succ_local cb dec fuel hr] at hok ⊢
        rcases hp : processLocal cb dec r with ⟨r1, inv⟩ | ⟨r1, inv⟩ | ⟨e, r1, inv?⟩
        · rw [hp] at hok
          dsimp only at hok ⊢
          have hsfx : r1 <:+ r := by
            have hq := processLocal_suffix cb dec r
            rw [hp] at hq
            exact hq
          have hr1len : r1.length < fuel := by
            have h1 := hsfx.length_le
            have h2 : r.length = s.length - 4 := by rw [hrd]; simp
            omega
          rcases ih r1 hr1len hok with ⟨pre, sb, heq, hlen4, hmem⟩ | ⟨inv', hmem', hstop⟩
          · left
            obtain ⟨c, hc⟩ := hsfx
            set rem := (zipLoop cb dec fuel r1).2.1 with hrem
            refine ⟨s.take 4 ++ c ++ pre, sb, ?_, hlen4, hmem⟩
            conv_lhs => rw [← List.take_append_drop 4 s]
            rw [← hrd, ← hc, heq]
            simp [List.append_assoc]
          · right
            exact ⟨inv', by simp [hmem'], hstop⟩
        · rw [hp] at hok
          dsimp only at hok ⊢
          right
          exact ⟨inv, by simp, processLocal_stopped_act hp⟩
        · rw [hp] at hok
          dsimp only at hok
          simp at hok
      · by_cases hc : sig ∈ centralSigs
        · rw [zipLoop_succ_central cb dec fuel hr hc] at hok ⊢
          left
          refine ⟨[], s.take 4, ?_, ?_, ?_⟩
          · simp only [List.nil_append]
            rw [hrd, List.take_append_drop]
          · rw [List.length_take]
            omega
          · rw [leNat_take]
            have hv : sig = leNat 4 s := (readLE_eq hr).1
            rw [← hv]
            exact hc
        · rw [zipLoop_succ_unknown cb dec fuel hr hsig hc] at hok
          simp at hok

/-- C2 amended: when `for_each_entry` returns `Ok`, either the consumed
portion of the stream ends with a central-directory signature — the cursor
sits immediately *after* those four signature bytes — or some callback
invocation returned `Stop` (in which case the cursor may sit mid-entry). -/
theorem claim_C2_amended (cb : Callback) (dec : Decoder) (s : List Nat)
    (hok : (for_each_entry cb dec s).1 = .ok ()) :
    (∃ pre sigBytes, s = pre ++ sigBytes ++ (for_each_entry cb dec s).2.1 ∧
      sigBytes.length = 4 ∧ leNat 4 sigBytes ∈ centralSigs) ∨
    (∃ inv ∈ (for_each_entry cb dec s).2.2, (cb inv.1 inv.2).act = .ok .stop) :=
  zipLoop_ok_shape cb dec (s.length + 1) s (by omega) hok

/-- Witness for C2 amended at the one-signature stream. -/
theorem claim_C2_witness :
    (∃ pre sigBytes, ([0x50, 0x4b, 0x01, 0x02] : List Nat) = pre ++ sigBytes ++
        (for_each_entry (fun _ _ => ⟨0, .ok .cont⟩) (fun _ => none)
          [0x50, 0x4b, 0x01, 0x02]).2.1 ∧
      sigBytes.length = 4 ∧ leNat 4 sigBytes ∈ centralSigs) ∨
    (∃ inv ∈ (for_each_entry (fun _ _ => ⟨0, .ok .cont⟩) (fun _ => none)
        [0x50, 0x4b, 0x01, 0x02]).2.2,
      ((fun (_ : String) (_ : EntryResult) => (⟨0, .ok .cont⟩ : CbOut)) inv.1 inv.2).act =
        .ok .stop) :=
  claim_C2_amended (fun _ _ => ⟨0, .ok .cont⟩) (fun _ => none)
    [0x50, 0x4b, 0x01, 0x02] (by rfl)

theorem readHeader_mk (version flags method time date crc csize usize : Nat)
    (name extras body : List Nat)
    (hv : version < 256 ^ 2) (hf : flags < 256 ^ 2) (hm : method < 256 ^ 2)
    (ht : time < 256 ^ 2) (hd : date < 256 ^ 2) (hc : crc < 256 ^ 4)
    (hcs : csize < 256 ^ 4) (hus : usize < 256 ^ 4)
    (hnl : name.length < 256 ^ 2) (hel : extras.length < 256 ^ 2) :
    readHeader (leBytes 2 version ++ (leBytes 2 flags ++ (leBytes 2 method ++
      (leBytes 2 time ++ (leBytes 2 date ++ (leBytes 4 crc ++ (leBytes 4 csize ++
      (leBytes 4 usize ++ (leBytes 2 name.length ++ (leBytes 2 extras.length ++
      (name ++ (extras ++ body)))))))))))) =
      some (⟨version, flags, method, csize, name, extras⟩, body) := by
  simp only [readHeader, bind, Option.bind, Option.pure_def,
    readLE_leBytes _ hv, readLE_leBytes _ hf, readLE_leBytes _ hm,
    readLE_leBytes _ ht, readLE_leBytes _ hd, readLE_leBytes _ hc,
    readLE_leBytes _ hcs, readLE_leBytes _ hus, readLE_leBytes _ hnl,
    readLE_leBytes _ hel, readExact_append (extras ++ body) rfl,
    readExact_append body rfl]

theorem for_each_entry_local (cb : Callback) (dec : Decoder) {s r : List Nat}
    (hr : readLE 4 s = some (0x04034b50, r)) (hslen : s.length = r.length + 4) :
    for_each_entry cb dec s =
      (match processLocal cb dec r with
       | .next rest inv => ((for_each_entry cb dec rest).1, (for_each_entry cb dec rest).2.1,
           inv :: (for_each_entry cb dec rest).2.2)
       | .stopped rest inv => (.ok (), rest, [inv])
       | .failed e rest inv? => (.error e, rest, inv?.toList)) := by
  have hfe : for_each_entry cb dec s = zipLoop cb dec ((r.length + 4) + 1) s := by
    unfold for_each_entry
    rw [hslen]
  rw [hfe, zipLoop_succ_local cb dec _ hr]
  rcases hp : processLocal cb dec r with ⟨r1, inv⟩ | ⟨r1, inv⟩ | ⟨e, r1, inv?⟩
  · dsimp only
    have hs : r1 <:+ r := by
      have hq := processLocal_suffix cb dec r
      rw [hp] at hq
      exact hq
    have h1 : r1.length < r.length + 4 := by
      have := hs.length_le
      omega
    rw [show zipLoop cb dec (r.length + 4) r1 = for_each_entry cb dec r1 from
      zipLoop_congr cb dec _ _ _ h1 (by omega)]
  · rfl
  · rfl

/-- C1 counterexample: a streaming (flag bit 3) entry whose entry-level error
is `Encrypted`. The callback receives the error and returns `Continue`, yet
`for_each_entry` terminates with `Err(UnknownDataSize)` instead of
proceeding — so the claim's "holds for streaming entries as well" is false.
-/
theorem claim_C1_counterexample :
    ((fun (_ : String) (_ : EntryResult) => (⟨0, .ok .cont⟩ : CbOut)) "A"
        (.err .encrypted)).act = .ok .cont ∧
    for_each_entry (fun _ _ => ⟨0, .ok .cont⟩) (fun _ => none)
      (localEntry 20 9 8 0 0 0 0 0 [0x41] [] []) =
      (.error .unknownDataSize, [], [("A", .err .encrypted)]) := by
  constructor
  · rfl
  · rfl

/-- C1 amended: each entry-level error (`NewerVersionNeeded`, `Encrypted`,
`Patched`, `UnknownMethod`) is delivered to the callback as the entry
result. For a non-streaming entry (bit 3 clear) whose callback returns
`Continue`, iteration proceeds to the next record past the entry's
`compressed` bytes. For a streaming entry (bit 3 set), the callback is still
invoked with the error, but iteration then terminates with
`UnknownDataSize` whatever action the callback returns. -/
theorem claim_C1_amended (cb : Callback) (dec : Decoder)
    (version flags method time date crc csize usize : Nat)
    (name extras : List Nat) (e : ZipError)
    (hv : version < 256 ^ 2) (hf : flags < 256 ^ 2) (hm : method < 256 ^ 2)
    (ht : time < 256 ^ 2) (hd : date < 256 ^ 2) (hc : crc < 256 ^ 4)
    (hcs : csize < 256 ^ 4) (hus : usize < 256 ^ 4)
    (hnl : name.length < 256 ^ 2) (hel : extras.length < 256 ^ 2)
    (hmeth : entryMethod version flags method = .error e) :
    (∀ data rest : List Nat,
      flags &&& 8 = 0 →
      data.length = reconcile csize (parse_extra name extras {}).zip64
        Zip64Extra.compressed →
      (cb (entryName flags name (parse_extra name extras {})) (.err e)).act =
        .ok .cont →
      for_each_entry cb dec (localEntry version flags method time date crc
          csize usize name extras (data ++ rest)) =
        ((for_each_entry cb dec rest).1, (for_each_entry cb dec rest).2.1,
          (entryName flags name (parse_extra name extras {}), .err e) ::
            (for_each_entry cb dec rest).2.2)) ∧
    (∀ (body : List Nat) (a : Action),
      flags &&& 8 ≠ 0 →
      (cb (entryName flags name (parse_extra name extras {})) (.err e)).act =
        .ok a →
      for_each_entry cb dec (localEntry version flags method time date crc
          csize usize name extras body) =
        (.error .unknownDataSize, body,
          [(entryName flags name (parse_extra name extras {}), .err e)])) := by
  constructor
  · intro data rest hbit hlen hact
    have hhd := readHeader_mk version flags method time date crc csize usize
      name extras (data ++ rest) hv hf hm ht hd hc hcs hus hnl hel
    have hpl : processLocal cb dec (leBytes 2 version ++ (leBytes 2 flags ++
        (leBytes 2 method ++ (leBytes 2 time ++ (leBytes 2 date ++
        (leBytes 4 crc ++ (leBytes 4 csize ++ (leBytes 4 usize ++
        (leBytes 2 name.length ++ (leBytes 2 extras.length ++
        (name ++ (extras ++ (data ++ rest))))))))))))) =
        .next rest (entryName flags name (parse_extra name extras {}), .err e) := by
      simp only [processLocal, hhd, hmeth, hbit]
      rw [if_neg (by simp)]
      rw [hact]
      rw [← hlen]
      rw [show min data.length (data ++ rest).length = data.length from by
        rw [List.length_append]; omega]
      rw [List.drop_left]
    rw [for_each_entry_local cb dec (by
        simp only [localEntry]
        exact readLE_leBytes _ (by norm_num))
      (by simp only [localEntry, List.length_append, length_leBytes]; omega)]
    rw [hpl]
  · intro body a hbit hact
    have hhd := readHeader_mk version flags method time date crc csize usize
      name extras body hv hf hm ht hd hc hcs hus hnl hel
    have hpl : processLocal cb dec (leBytes 2 version ++ (leBytes 2 flags ++
        (leBytes 2 method ++ (leBytes 2 time ++ (leBytes 2 date ++
        (leBytes 4 crc ++ (leBytes 4 csize ++ (leBytes 4 usize ++
        (leBytes 2 name.length ++ (leBytes 2 extras.length ++
        (name ++ (extras ++ body)))))))))))) =
        .failed .unknownDataSize body
          (some (entryName flags name (parse_extra name extras {}), .err e)) := by
      simp only [processLocal, hhd, hmeth]
      rw [if_pos hbit]
      rw [hact]
    rw [for_each_entry_local cb dec (by
        simp only [localEntry]
        exact readLE_leBytes _ (by norm_num))
      (by simp only [localEntry, List.length_append, length_leBytes]; omega)]
    rw [hpl]
    rfl

/-- Witness for C1 amended: a non-streaming encrypted entry followed by an
end-of-central-directory record; the callback returns `Continue` and
iteration proceeds to that record. -/
theorem claim_C1_witness :
    for_each_entry (fun _ _ => ⟨0, .ok .cont⟩) (fun _ => none)
      (localEntry 20 1 0 0 0 0 2 2 [0x42] [] ([1, 2] ++ [0x50, 0x4b, 0x05, 0x06])) =
      (.ok (), [], [("B", .err .encrypted)]) := by
  have h := (claim_C1_amended (fun _ _ => ⟨0, .ok .cont⟩) (fun _ => none)
    20 1 0 0 0 0 2 2 [0x42] [] .encrypted
    (by norm_num) (by norm_num) (by norm_num) (by norm_num) (by norm_num)
    (by norm_num) (by norm_num) (by norm_num) (by norm_num) (by norm_num)
    (by rfl)).1 [1, 2] [0x50, 0x4b, 0x05, 0x06] (by rfl) (by rfl) (by rfl)
  rw [h]
  rfl

theorem parseExtraLoop_nil (name : List Nat) (fuel : Nat) (ex : Extra) :
    parseExtraLoop name fuel [] ex = ex := by
  cases fuel <;> rfl

theorem parseExtraLoop_succ (name : List Nat) (fuel : Nat) (buf : List Nat) (ex : Extra) :
    parseExtraLoop name (fuel + 1) buf ex =
      (if buf.isEmpty then ex
       else
        match readLE 2 buf with
        | none => ex
        | some (tag, r1) =>
          match readLE 2 r1 with
          | none => ex
          | some (size, r2) =>
            let d := r2.take size
            let rest := r2.drop size
            if tag = 0x0001 then
              match readLE 8 d with
              | none => ex
              | some (unc, d1) =>
                match readLE 8 d1 with
                | none => ex
                | some (comp, _) =>
                  parseExtraLoop name fuel rest { ex with zip64 := some ⟨unc, comp⟩ }
            else if tag = 0x7075 then
              match readLE 1 d with
              | none => ex
              | some (version, d1) =>
                if version = 1 then
                  match readLE 4 d1 with
                  | none => ex
                  | some (crc, _) =>
                    if crc = checksum_ieee name then
                      parseExtraLoop name fuel rest
                        { ex with unicode_path := some ((r2.drop 5).take (size - 5)) }
                    else parseExtraLoop name fuel rest ex
                else parseExtraLoop name fuel rest ex
            else parseExtraLoop name fuel rest ex) := rfl

theorem isEmpty_leBytes_append (w n : Nat) (r : List Nat) :
    (leBytes (w + 1) n ++ r).isEmpty = false := by
  simp [leBytes]

theorem readLE_leBytes_nil {w n : Nat} (h : n < 256 ^ w) :
    readLE w (leBytes w n) = some (n, []) := by
  have hx := readLE_leBytes [] h
  simpa using hx

theorem parse_extra_nil (name : List Nat) (ex : Extra) : parse_extra name [] ex = ex := rfl

theorem parse_extra_zip64 (name : List Nat) {u c : Nat}
    (hu : u < 256 ^ 8) (hc : c < 256 ^ 8) :
    parse_extra name (zip64ExtraRecord u c) {} =
      { unicode_path := none, zip64 := some ⟨u, c⟩ } := by
  have hdlen : (leBytes 8 u ++ leBytes 8 c).length = 16 := by
    rw [List.length_append, length_leBytes, length_leBytes]
  have htake : (leBytes 8 u ++ leBytes 8 c).take 16 = leBytes 8 u ++ leBytes 8 c :=
    List.take_of_length_le (by omega)
  have hdrop : (leBytes 8 u ++ leBytes 8 c).drop 16 = [] :=
    List.drop_eq_nil_of_le (by omega)
  unfold parse_extra
  rw [parseExtraLoop_succ]
  simp only [zip64ExtraRecord, isEmpty_leBytes_append, Bool.false_eq_true, if_false,
    readLE_leBytes _ (show (1 : Nat) < 256 ^ 2 by norm_num),
    readLE_leBytes _ (show (16 : Nat) < 256 ^ 2 by norm_num),
    htake, hdrop, readLE_leBytes _ hu, readLE_leBytes_nil hc,
    parseExtraLoop_nil]
  simp

theorem parse_extra_unicode (name payload : List Nat) (v crc : Nat)
    (hv : v < 256) (hcrc : crc < 256 ^ 4) (hsz : 5 + payload.length < 256 ^ 2) :
    parse_extra name (unicodePathRecord v crc payload) {} =
      (if v = 1 ∧ crc = checksum_ieee name
       then { unicode_path := some payload, zip64 := none }
       else {}) := by
  have hdlen : (leBytes 1 v ++ (leBytes 4 crc ++ payload)).length = 5 + payload.length := by
    rw [List.length_append, List.length_append, length_leBytes, length_leBytes]
    omega
  have hdrop5 : (leBytes 1 v ++ (leBytes 4 crc ++ payload)).drop 5 = payload := by
    rw [show (5 : Nat) = (leBytes 1 v).length + 4 from by rw [length_leBytes]]
    rw [List.drop_append, drop_leBytes_append]
  have htake : (leBytes 1 v ++ (leBytes 4 crc ++ payload)).take (5 + payload.length) =
      leBytes 1 v ++ (leBytes 4 crc ++ payload) :=
    List.take_of_length_le (by omega)
  have hdropn : (leBytes 1 v ++ (leBytes 4 crc ++ payload)).drop (5 + payload.length) = [] :=
    List.drop_eq_nil_of_le (by omega)
  have htakelen : payload.take (5 + payload.length - 5) = payload := by
    rw [show 5 + payload.length - 5 = payload.length from by omega, List.take_length]
  unfold parse_extra
  rw [parseExtraLoop_succ]
  simp only [unicodePathRecord, isEmpty_leBytes_append, Bool.false_eq_true, if_false,
    readLE_leBytes _ (show (0x7075 : Nat) < 256 ^ 2 by norm_num),
    readLE_leBytes _ hsz, htake, hdropn,
    readLE_leBytes _ (show v < 256 ^ 1 by simpa using hv),
    readLE_leBytes _ hcrc, hdrop5, htakelen, parseExtraLoop_nil]
  rw [if_neg (by norm_num), if_true]
  by_cases hv1 : v = 1
  · rw [if_pos hv1]
    by_cases hcrceq : crc = checksum_ieee name
    · rw [if_pos hcrceq, if_pos ⟨hv1, hcrceq⟩]
    · rw [if_neg hcrceq, if_neg (by tauto)]
  · rw [if_neg hv1, if_neg (by tauto)]

/-- C4: for a streaming Deflate entry whose callback returns `Continue`,
after the decoder is drained `for_each_entry` reads a data descriptor — an
optional `0x08074B50` signature (`sigOpt` is either that signature or empty,
in which case the first u32 is the crc and must differ from the signature
value), a u32 crc, then the compressed and uncompressed sizes, u32 each
without a ZIP64 extra (first conjunct) and u64 each with one (second
conjunct) — and fails with `DataDescriptorMismatch` exactly when the raw
bytes consumed by the decoder (`data.length`) differ from the descriptor's
compressed size; on equality iteration proceeds past the descriptor. -/
theorem claim_C4 (cb : Callback) (dec : Decoder)
    (version flags time date crc csize usize : Nat)
    (name data rest sigOpt : List Nat) (crcv : Nat)
    (hv : version < 256 ^ 2) (hf : flags < 256 ^ 2)
    (ht : time < 256 ^ 2) (hd : date < 256 ^ 2) (hc : crc < 256 ^ 4)
    (hcs : csize < 256 ^ 4) (hus : usize < 256 ^ 4)
    (hnl : name.length < 256 ^ 2)
    (hmeth : entryMethod version flags 8 = .ok .deflate)
    (hbit : flags &&& 8 ≠ 0)
    (hcrcv : crcv < 256 ^ 4)
    (hsig : sigOpt = leBytes 4 0x08074b50 ∨ (sigOpt = [] ∧ crcv ≠ 0x08074b50)) :
    (∀ cs us : Nat, cs < 256 ^ 4 → us < 256 ^ 4 →
      (cb (entryName flags name (parse_extra name [] {})) .reader).act = .ok .cont →
      dec (data ++ (sigOpt ++ (leBytes 4 crcv ++ (leBytes 4 cs ++
        (leBytes 4 us ++ rest))))) = some data.length →
      for_each_entry cb dec (localEntry version flags 8 time date crc csize
          usize name [] (data ++ (sigOpt ++ (leBytes 4 crcv ++ (leBytes 4 cs ++
          (leBytes 4 us ++ rest)))))) =
        (if data.length ≠ cs then
          (.error .dataDescriptorMismatch, rest,
            [(entryName flags name (parse_extra name [] {}), .reader)])
         else
          ((for_each_entry cb dec rest).1, (for_each_entry cb dec rest).2.1,
            (entryName flags name (parse_extra name [] {}), .reader) ::
              (for_each_entry cb dec rest).2.2))) ∧
    (∀ zu zc cs us : Nat, zu < 256 ^ 8 → zc < 256 ^ 8 → cs < 256 ^ 8 → us < 256 ^ 8 →
      (cb (entryName flags name (parse_extra name (zip64ExtraRecord zu zc) {}))
          .reader).act = .ok .cont →
      dec (data ++ (sigOpt ++ (leBytes 4 crcv ++ (leBytes 8 cs ++
        (leBytes 8 us ++ rest))))) = some data.length →
      for_each_entry cb dec (localEntry version flags 8 time date crc csize
          usize name (zip64ExtraRecord zu zc) (data ++ (sigOpt ++
          (leBytes 4 crcv ++ (leBytes 8 cs ++ (leBytes 8 us ++ rest)))))) =
        (if data.length ≠ cs then
          (.error .dataDescriptorMismatch, rest,
            [(entryName flags name (parse_extra name (zip64ExtraRecord zu zc) {}),
              .reader)])
         else
          ((for_each_entry cb dec rest).1, (for_each_entry cb dec rest).2.1,
            (entryName flags name (parse_extra name (zip64ExtraRecord zu zc) {}),
              .reader) :: (for_each_entry cb dec rest).2.2))) := by
  constructor
  · intro cs us hcs4 hus4 hact hdec
    have hhd := readHeader_mk version flags 8 time date crc csize usize
      name [] (data ++ (sigOpt ++ (leBytes 4 crcv ++ (leBytes 4 cs ++
        (leBytes 4 us ++ rest))))) hv hf (by norm_num) ht hd hc hcs hus hnl
      (by norm_num)
    have hfin : finishDescriptor (parse_extra name [] {}) data.length
        (leBytes 4 cs ++ (leBytes 4 us ++ rest))
        (entryName flags name (parse_extra name [] {}), .reader) =
        (if data.length ≠ cs then
          .failed .dataDescriptorMismatch rest
            (some (entryName flags name (parse_extra name [] {}), .reader))
         else .next rest (entryName flags name (parse_extra name [] {}), .reader)) := by
      rw [parse_extra_nil]
      simp only [finishDescriptor, Option.isNone_none, if_true,
        readLE_leBytes _ hcs4, readLE_leBytes _ hus4]
    have hpl : processLocal cb dec (leBytes 2 version ++ (leBytes 2 flags ++
        (leBytes 2 8 ++ (leBytes 2 time ++ (leBytes 2 date ++
        (leBytes 4 crc ++ (leBytes 4 csize ++ (leBytes 4 usize ++
        (leBytes 2 name.length ++ (leBytes 2 ([] : List Nat).length ++
        (name ++ (([] : List Nat) ++ (data ++ (sigOpt ++ (leBytes 4 crcv ++
        (leBytes 4 cs ++ (leBytes 4 us ++ rest))))))))))))))))) =
        (if data.length ≠ cs then
          .failed .dataDescriptorMismatch rest
            (some (entryName flags name (parse_extra name [] {}), .reader))
         else .next rest (entryName flags name (parse_extra name [] {}), .reader)) := by
      simp only [processLocal, hhd, hmeth]
      rw [if_pos hbit]
      rw [hact, hdec]
      dsimp only
      rw [show min data.length (data ++ (sigOpt ++ (leBytes 4 crcv ++
          (leBytes 4 cs ++ (leBytes 4 us ++ rest))))).length = data.length from by
        rw [List.length_append]; omega]
      rw [List.drop_left]
      rcases hsig with hso | ⟨hso, hne⟩
      · rw [hso]
        rw [readLE_leBytes _ (by norm_num)]
        dsimp only
        rw [if_pos rfl]
        rw [readLE_leBytes _ hcrcv]
        dsimp only
        exact hfin
      · rw [hso, List.nil_append]
        rw [readLE_leBytes _ hcrcv]
        dsimp only
        rw [if_neg hne]
        exact hfin
    rw [for_each_entry_local cb dec (by
        simp only [localEntry]
        exact readLE_leBytes _ (by norm_num))
      (by simp only [localEntry, List.length_append, length_leBytes]; omega)]
    rw [hpl]
    by_cases hne : data.length = cs
    · rw [if_neg (by omega), if_neg (by omega)]
    · rw [if_pos (by omega), if_pos (by omega)]
      rfl
  · intro zu zc cs us hzu hzc hcs8 hus8 hact hdec
    have hexlen : (zip64ExtraRecord zu zc).length = 20 := by
      simp [zip64ExtraRecord, length_leBytes]
    have hhd := readHeader_mk version flags 8 time date crc csize usize
      name (zip64ExtraRecord zu zc) (data ++ (sigOpt ++ (leBytes 4 crcv ++
        (leBytes 8 cs ++ (leBytes 8 us ++ rest))))) hv hf (by norm_num) ht hd hc
      hcs hus hnl (by rw [hexlen]; norm_num)
    have hz64 : (parse_extra name (zip64ExtraRecord zu zc) {}).zip64.isNone = false := by
      rw [parse_extra_zip64 name hzu hzc]
      rfl
    have hfin : finishDescriptor (parse_extra name (zip64ExtraRecord zu zc) {})
        data.length (leBytes 8 cs ++ (leBytes 8 us ++ rest))
        (entryName flags name (parse_extra name (zip64ExtraRecord zu zc) {}),
          .reader) =
        (if data.length ≠ cs then
          .failed .dataDescriptorMismatch rest
            (some (entryName flags name (parse_extra name (zip64ExtraRecord zu zc) {}),
              .reader))
         else .next rest (entryName flags name
            (parse_extra name (zip64ExtraRecord zu zc) {}), .reader)) := by
      simp only [finishDescriptor, hz64, Bool.false_eq_true, if_false,
        readLE_leBytes _ hcs8, readLE_leBytes _ hus8]
    have hpl : processLocal cb dec (leBytes 2 version ++ (leBytes 2 flags ++
        (leBytes 2 8 ++ (leBytes 2 time ++ (leBytes 2 date ++
        (leBytes 4 crc ++ (leBytes 4 csize ++ (leBytes 4 usize ++
        (leBytes 2 name.length ++ (leBytes 2 (zip64ExtraRecord zu zc).length ++
        (name ++ ((zip64ExtraRecord zu zc) ++ (data ++ (sigOpt ++ (leBytes 4 crcv ++
        (leBytes 8 cs ++ (leBytes 8 us ++ rest))))))))))))))))) =
        (if data.length ≠ cs then
          .failed .dataDescriptorMismatch rest
            (some (entryName flags name (parse_extra name (zip64ExtraRecord zu zc) {}),
              .reader))
         else .next rest (entryName flags name
            (parse_extra name (zip64ExtraRecord zu zc) {}), .reader)) := by
      simp only [processLocal, hhd, hmeth]
      rw [if_pos hbit]
      rw [hact, hdec]
      dsimp only
      rw [show min data.length (data ++ (sigOpt ++ (leBytes 4 crcv ++
          (leBytes 8 cs ++ (leBytes 8 us ++ rest))))).length = data.length from by
        rw [List.length_append]; omega]
      rw [List.drop_left]
      rcases hsig with hso | ⟨hso, hne⟩
      · rw [hso]
        rw [readLE_leBytes _ (by norm_num)]
        dsimp only
        rw [if_pos rfl]
        rw [readLE_leBytes _ hcrcv]
        dsimp only
        exact hfin
      · rw [hso, List.nil_append]
        rw [readLE_leBytes _ hcrcv]
        dsimp only
        rw [if_neg hne]
        exact hfin
    rw [for_each_entry_local cb dec (by
        simp only [localEntry]
        exact readLE_leBytes _ (by norm_num))
      (by simp only [localEntry, List.length_append, length_leBytes]; omega)]
    rw [hpl]
    by_cases hne : data.length = cs
    · rw [if_neg (by omega), if_neg (by omega)]
    · rw [if_pos (by omega), if_pos (by omega)]
      rfl

/-- Witness for C4: a streaming Deflate entry with matching descriptor
(signature present, u32 sizes), followed by an end-of-central-directory
record. -/
theorem claim_C4_witness :
    for_each_entry (fun _ _ => ⟨0, .ok .cont⟩) (fun _ => some 3)
      (localEntry 20 8 8 0 0 0 0 0 [0x41] []
        ([1, 2, 3] ++ (leBytes 4 0x08074b50 ++ (leBytes 4 7 ++ (leBytes 4 3 ++
          (leBytes 4 3 ++ [0x50, 0x4b, 0x05, 0x06])))))) =
      (.ok (), [], [("A", .reader)]) := by
  have h := (claim_C4 (fun _ _ => ⟨0, .ok .cont⟩) (fun _ => some 3)
    20 8 0 0 0 0 0 [0x41] [1, 2, 3] [0x50, 0x4b, 0x05, 0x06]
    (leBytes 4 0x08074b50) 7
    (by decide) (by decide) (by decide) (by decide) (by decide)
    (by decide) (by decide) (by decide) (by decide) (by decide)
    (by decide) (Or.inl rfl)).1 3 3 (by decide) (by decide) (by rfl) (by rfl)
  rw [h]
  rfl

/-- C5: the name passed to the callback follows this priority — flag bit 11
forces lossy UTF-8 of the raw name bytes (even when a Unicode-path extra is
present); otherwise a Unicode-path record with `version = 1` and a CRC-32
matching the raw name bytes supplies the name (lossy UTF-8 of its payload);
a record failing the version or CRC check is not adopted and the name falls
back to byte-by-byte CP437, as it does when no record is present. -/
theorem claim_C5 (flags : Nat) (name payload : List Nat) (v crc : Nat)
    (hv : v < 256) (hcrc : crc < 256 ^ 4) (hsz : 5 + payload.length < 256 ^ 2) :
    (flags &&& (1 <<< 11) ≠ 0 →
      entryName flags name (parse_extra name (unicodePathRecord v crc payload) {}) =
          utf8LossyStr name ∧
        entryName flags name (parse_extra name [] {}) = utf8LossyStr name) ∧
    (flags &&& (1 <<< 11) = 0 → v = 1 → crc = checksum_ieee name →
      entryName flags name (parse_extra name (unicodePathRecord v crc payload) {}) =
        utf8LossyStr payload) ∧
    (flags &&& (1 <<< 11) = 0 → (v ≠ 1 ∨ crc ≠ checksum_ieee name) →
      entryName flags name (parse_extra name (unicodePathRecord v crc payload) {}) =
        cp437Str name) ∧
    (flags &&& (1 <<< 11) = 0 →
      entryName flags name (parse_extra name [] {}) = cp437Str name) := by
  refine ⟨?_, ?_, ?_, ?_⟩
  · intro h
    constructor <;> (unfold entryName; rw [if_pos h])
  · intro h hv1 hcrceq
    unfold entryName
    rw [if_neg (by omega)]
    rw [parse_extra_unicode name payload v crc hv hcrc hsz]
    rw [if_pos ⟨hv1, hcrceq⟩]
  · intro h hbad
    unfold entryName
    rw [if_neg (by omega)]
    rw [parse_extra_unicode name payload v crc hv hcrc hsz]
    rw [if_neg (by tauto)]
  · intro h
    unfold entryName
    rw [if_neg (by omega)]
    rw [parse_extra_nil]

/-- Witness for C5: the repository's own test vector — name `file.txt`,
Unicode-path record for `asdf.txt` with version 1 and matching CRC-32. -/
theorem claim_C5_witness :
    entryName 0 [0x66, 0x69, 0x6c, 0x65, 0x2e, 0x74, 0x78, 0x74]
      (parse_extra [0x66, 0x69, 0x6c, 0x65, 0x2e, 0x74, 0x78, 0x74]
        (unicodePathRecord 1 0xE0F71625
          [0x61, 0x73, 0x64, 0x66, 0x2e, 0x74, 0x78, 0x74]) {}) =
      utf8LossyStr [0x61, 0x73, 0x64, 0x66, 0x2e, 0x74, 0x78, 0x74] :=
  (claim_C5 0 [0x66, 0x69, 0x6c, 0x65, 0x2e, 0x74, 0x78, 0x74]
    [0x61, 0x73, 0x64, 0x66, 0x2e, 0x74, 0x78, 0x74] 1 0xE0F71625
    (by decide) (by decide) (by decide)).2.1 (by decide) rfl (by decide)

end Xrep
